import Mathlib

/-!
Verification of the lsh-communication-dynamics repository.

Part A embeds `src/scripts/01_build_lsh_timeseries.py`: the Last-Speaker-Holds
timeline builder (`build_lsh_timeseries`) and the numeric speaker encoding
(`encode_speakers_numeric`).

Part B embeds `src/study1_perturbation_protocol/validation/validation_script.py`:
the `PerturbationValidator` rule engine with its six checks and the
`run_all_validations` aggregator.

Conventions of the embedding:
* `start_time` values (Python floats) are modelled as exact rationals.
* Python `int(x)` truncation toward zero is `pyInt`.
* A pandas DataFrame produced by `pd.read_csv` is modelled as a `Table`:
  a row count plus an association list from column names to cell lists,
  where a cell is missing (`NaN`), a string, or an integer.
* Exceptions (the `KeyError` raised by `self.df[col]` on a missing column,
  and the `ValueError`s of the timeline builder) are modelled with `Except`.
* Message texts follow the source; Python `repr` quoting of list elements and
  float decimal formatting inside messages are rendered by simple `toString`
  based helpers.
-/

namespace LSH

/-- A transcript row: columns `speaker_id` and `start_time` (seconds). -/
structure TranscriptEntry where
  speaker_id : String
  start_time : ℚ
deriving DecidableEq, Repr

/-- Python `int(x)`: truncation toward zero. -/
def pyInt (q : ℚ) : ℤ := if 0 ≤ q then ⌊q⌋ else ⌈q⌉

/-- The discrete step index of an entry: `int(row['start_time'] * sampling_rate)`. -/
def stepIdx (rate : ℕ) (e : TranscriptEntry) : ℤ := pyInt (e.start_time * rate)

/-- The sort `transcript_df.sort_values('start_time')`. -/
def sortTranscript (l : List TranscriptEntry) : List TranscriptEntry :=
  List.insertionSort (fun a b => a.start_time ≤ b.start_time) l

/-- Maximum of a nonempty list of rationals (`Series.max()`); 0 on the
empty list, which the builder never reaches. -/
def listMax : List ℚ → ℚ
  | [] => 0
  | [a] => a
  | a :: b :: rest => max a (listMax (b :: rest))

/-- Total duration: `int(meeting_duration)` when provided, else
`int(transcript_df['start_time'].max()) + 1`. -/
def maxTime (sorted : List TranscriptEntry) (duration : Option ℤ) : ℤ :=
  match duration with
  | some d => d
  | none => pyInt (listMax (sorted.map (fun e => e.start_time))) + 1

/-- Number of steps of `np.arange(0, max_time, 1 / sampling_rate)`:
`max_time * rate` steps when positive, none otherwise. -/
def timelineLen (sorted : List TranscriptEntry) (rate : ℕ) (duration : Option ℤ) : ℕ :=
  (maxTime sorted duration * rate).toNat

/-- Writes `s` at every position `p` of the list with `lo ≤ pos + p < hi`;
`pos` is the index of the first element. -/
def writeBlockAux (s : String) (lo hi : ℤ) : ℕ → List (Option String) → List (Option String)
  | _, [] => []
  | pos, v :: rest =>
      (if lo ≤ (pos : ℤ) ∧ (pos : ℤ) < hi then some s else v) ::
        writeBlockAux s lo hi (pos + 1) rest

/-- The block assignment `timeseries.loc[start_idx:end_idx-1, 'speaker_id'] = s`:
on a `RangeIndex` this writes positions `lo ≤ p < hi`, clipped to the frame. -/
def writeBlock (tl : List (Option String)) (lo hi : ℤ) (s : String) : List (Option String) :=
  writeBlockAux s lo hi 0 tl

/-- The core loop of `build_lsh_timeseries`: each entry holds from its own
step index up to the next entry's step index; the last entry holds to the
end of the frame (`len(timeseries)`). -/
def assignLoop (rate : ℕ) (L : ℕ) : List TranscriptEntry → List (Option String) → List (Option String)
  | [], tl => tl
  | [e], tl => writeBlock tl (stepIdx rate e) (L : ℤ) e.speaker_id
  | e :: e' :: rest, tl =>
      assignLoop rate L (e' :: rest) (writeBlock tl (stepIdx rate e) (stepIdx rate e') e.speaker_id)

/-- The timeline builder `build_lsh_timeseries(transcript_df, sampling_rate,
meeting_duration)`. Returns the `speaker_id` column of the produced frame
(one label per step index `0, 1, ...`), or the `ValueError` message. -/
def build_lsh_timeseries (transcript : List TranscriptEntry) (rate : ℕ)
    (duration : Option ℤ) : Except String (List String) :=
  if transcript = [] then
    .error "Input transcript_df cannot be empty."
  else
    let sorted : List TranscriptEntry := sortTranscript transcript
    let times : List ℚ := sorted.map (fun e => e.start_time)
    if times.Nodup then
      if times.Chain' (fun a b => a ≤ b) then
        let L := timelineLen sorted rate duration
        .ok ((assignLoop rate L sorted (List.replicate L (none : Option String))).map
          (fun v => v.getD "SILENCE"))
      else
        .error "start_time values must be monotonically increasing after sorting."
    else
      .error "Duplicate start_time values found. Each utterance must have a unique start time."

/-- Left-to-right scan keeping the first occurrence of each value not yet
seen; `seen` is the set of values already emitted. -/
def uniqueAux {α : Type} [DecidableEq α] (seen : List α) : List α → List α
  | [] => []
  | a :: rest => if a ∈ seen then uniqueAux seen rest else a :: uniqueAux (a :: seen) rest

/-- Distinct values of a list in order of first appearance
(`Series.unique()` of pandas). -/
def uniqueInOrder {α : Type} [DecidableEq α] (l : List α) : List α := uniqueAux [] l

/-- Index of the first occurrence of `s` (length of the list when absent). -/
def firstIdx {α : Type} [DecidableEq α] : List α → α → ℕ
  | [], _ => 0
  | a :: rest, s => if a = s then 0 else firstIdx rest s + 1

/-- `timeseries['speaker_id'].unique()` on the produced timeline. -/
def unique_speakers (tl : List String) : List String := uniqueInOrder tl

/-- The dictionary comprehension of `encode_speakers_numeric`:
each distinct speaker mapped to its `enumerate` position. -/
def speaker_map (tl : List String) (s : String) : ℕ := firstIdx (unique_speakers tl) s

/-- `encode_speakers_numeric(timeseries)`: the added `speaker_numeric`
column together with the mapping. -/
def encode_speakers_numeric (tl : List String) : List ℕ × (String → ℕ) :=
  (tl.map (speaker_map tl), speaker_map tl)

/-- Speaker of the entry whose hold interval covers step `i`, scanning the
sorted entries left to right: a non-final entry covers
`[stepIdx e, stepIdx e')` for its successor `e'`, the final entry covers
`[stepIdx e, L)`. -/
def findCover (rate : ℕ) (L : ℕ) (i : ℕ) : List TranscriptEntry → Option String
  | [] => none
  | [e] => if stepIdx rate e ≤ (i : ℤ) ∧ (i : ℤ) < (L : ℤ) then some e.speaker_id else none
  | e :: e' :: rest =>
      if stepIdx rate e ≤ (i : ℤ) ∧ (i : ℤ) < stepIdx rate e' then some e.speaker_id
      else findCover rate L i (e' :: rest)

/-- A cell of the classification table as loaded by `pd.read_csv`:
missing (`NaN`), a string, or an integer. -/
inductive Cell where
  | na : Cell
  | str : String → Cell
  | int : ℤ → Cell
deriving DecidableEq, Repr

/-- `astype(str)` on one cell; pandas renders `NaN` as the string "nan". -/
def cellStr : Cell → String
  | .na => "nan"
  | .str s => s
  | .int n => toString n

/-- `pd.isna` on one cell. -/
def Cell.isNa : Cell → Bool
  | .na => true
  | _ => false

/-- The loaded DataFrame `self.df`: its row count (`len(self.df)`) and its
columns as an association list from column name to cell list. -/
structure Table where
  nrows : ℕ
  columns : List (String × List Cell)
deriving DecidableEq, Repr

/-- `self.df[c]`: the column named `c`, if present. -/
def Table.getCol (t : Table) (c : String) : Option (List Cell) :=
  (t.columns.find? (fun p => p.1 == c)).map (fun p => p.2)

/-- `c in self.df.columns`. -/
def Table.hasCol (t : Table) (c : String) : Bool := (t.getCol c).isSome

/-- The three accumulator lists `self.errors`, `self.warnings`, `self.info`
of a `PerturbationValidator` instance. -/
structure Findings where
  errors : List String
  warnings : List String
  info : List String
deriving DecidableEq, Repr

/-- The state of a freshly constructed validator (`__init__`). -/
def emptyFindings : Findings := ⟨[], [], []⟩

/-- `self.errors.append(m)`. -/
def addError (f : Findings) (m : String) : Findings :=
  ⟨f.errors ++ [m], f.warnings, f.info⟩

/-- `self.warnings.append(m)`. -/
def addWarning (f : Findings) (m : String) : Findings :=
  ⟨f.errors, f.warnings ++ [m], f.info⟩

/-- `self.info.append(m)`. -/
def addInfo (f : Findings) (m : String) : Findings :=
  ⟨f.errors, f.warnings, f.info ++ [m]⟩

/-- Componentwise concatenation of finding lists. -/
def appendF (f g : Findings) : Findings :=
  ⟨f.errors ++ g.errors, f.warnings ++ g.warnings, f.info ++ g.info⟩

/-- Python `str.lower()`, modelled characterwise so that it evaluates by
kernel reduction. -/
def strLower (s : String) : String := ⟨s.data.map Char.toLower⟩

/-- The flag sum of `count_perturbations`:
`(flags == 'yes').sum() + (flags == '1').sum() + (flags == 'true').sum()`
on the lower-cased string rendering of the column. -/
def pertCount (col : List Cell) : ℕ :=
  (col.map (fun c => strLower (cellStr c))).count "yes" +
  (col.map (fun c => strLower (cellStr c))).count "1" +
  (col.map (fun c => strLower (cellStr c))).count "true"

/-- `count_perturbations(self)`: prefers the lower-case flag column, falls
back to the capitalized one, else records an error finding and returns 0. -/
def count_perturbations (t : Table) (f : Findings) : ℕ × Findings :=
  match t.getCol "perturbation_flag" with
  | some col => (pertCount col, f)
  | none =>
      match t.getCol "Perturbation_Flag" with
      | some col => (pertCount col, f)
      | none => (0, addError f "ERROR: No perturbation_flag column found in CSV")

/-- Bracketed rendering of a string list (Python `repr` quoting omitted). -/
def renderStrList (l : List String) : String :=
  "[" ++ String.intercalate ", " l ++ "]"

/-- `validate_required_columns(self)`. -/
def validate_required_columns (t : Table) (f : Findings) : Bool × Findings :=
  let missing := (["episode_id", "event_id", "perturbation_flag"]).filter
    (fun c => !(t.hasCol c))
  if missing = [] then (true, f)
  else (false, addError f ("ERROR: Missing required columns: " ++ renderStrList missing))

/-- Rendering of `rate:.1f` where `rate = p / tot * 100`, by integer
arithmetic (truncated to one decimal; the float rounding of the source is
abstracted). -/
def ratePercentStr (p tot : ℕ) : String :=
  toString (1000 * p / tot / 10) ++ "." ++ toString (1000 * p / tot % 10)

def msgUnusualRate (p tot : ℕ) : String :=
  "⚠️  UNUSUAL: 100% perturbation rate (" ++ toString p ++ "/" ++ toString tot ++
  "). This is statistically rare. Please manually review a sample of classifications to ensure they are genuine perturbations and not normal discussion."

def msgHighRate (p tot : ℕ) : String :=
  "⚠️  HIGH RATE: " ++ ratePercentStr p tot ++ "% perturbation rate (" ++ toString p ++ "/" ++
  toString tot ++
  "). This is higher than typical. If the meeting was a crisis or major pivot, this may be correct. Please manually review a sample to verify quality."

def msgElevatedRate (p tot : ℕ) : String :=
  "⚠️  ELEVATED RATE: " ++ ratePercentStr p tot ++ "% perturbation rate (" ++ toString p ++ "/" ++
  toString tot ++ "). This is above average but may be legitimate. Spot-check a few classifications."

def msgZeroPert (tot : ℕ) : String :=
  "⚠️  ZERO PERTURBATIONS: Found 0 perturbations in " ++ toString tot ++
  " events. This is unusual for a typical meeting. Please verify the analysis was completed correctly."

def msgLowCount (p tot : ℕ) : String :=
  "ℹ️  LOW COUNT: Only " ++ toString p ++ " perturbations in " ++ toString tot ++
  " events. This may indicate a very smooth meeting or possible under-flagging."

/-- `validate_perturbation_rate(self)`: alerts on unusual rates; hard error
only on an empty table. With `rate = perturbations / total * 100`, the
source conditions `rate == 100.0`, `rate > 60.0` and `rate > 40.0` are
modelled by the exact equivalents `p = total`, `5 * p > 3 * total` and
`5 * p > 2 * total` over the integers. -/
def validate_perturbation_rate (t : Table) (f : Findings) : Bool × Findings :=
  let total := t.nrows
  let c := count_perturbations t f
  if total = 0 then (false, addError c.2 "ERROR: No events found in CSV")
  else
    let f2 :=
      if c.1 = total ∧ total > 10 then addWarning c.2 (msgUnusualRate c.1 total)
      else if 5 * c.1 > 3 * total then addWarning c.2 (msgHighRate c.1 total)
      else if 5 * c.1 > 2 * total then addWarning c.2 (msgElevatedRate c.1 total)
      else c.2
    let f3 :=
      if c.1 = 0 ∧ total > 20 then addWarning f2 (msgZeroPert total)
      else if c.1 < 5 ∧ total > 50 then addInfo f2 (msgLowCount c.1 total)
      else f2
    (true, f3)

/-- The flag-column name resolution used by the type, consistency and
justification checks: the lower-case name if present, else the capitalized
name (whether or not that one is present). -/
def flagColName (t : Table) : String :=
  if t.hasCol "perturbation_flag" then "perturbation_flag" else "Perturbation_Flag"

/-- The type-column name resolution: `None` when neither variant exists. -/
def resolveTypeCol (t : Table) : Option String :=
  if t.hasCol "perturbation_type" then some "perturbation_type"
  else if t.hasCol "Perturbation_Type" then some "Perturbation_Type"
  else none

/-- `.isin(['yes', '1', 'true'])` on the lower-cased string rendering. -/
def isPertFlag (c : Cell) : Bool :=
  (["yes", "1", "true"] : List String).contains (strLower (cellStr c))

/-- The row selection `self.df[self.df[flag_col]...isin([...])][other_col]`:
cells of `other` on the rows whose flag cell matches. -/
def filterByFlag (flags other : List Cell) : List Cell :=
  (flags.zip other).filterMap (fun p => if isPertFlag p.1 then some p.2 else none)

/-- `Series.value_counts()`: distinct non-missing values with their counts,
sorted by count descending (stably, in first-appearance order on ties). -/
def value_counts (l : List Cell) : List (Cell × ℕ) :=
  let nonNa := l.filter (fun c => !c.isNa)
  List.insertionSort (fun p q : Cell × ℕ => q.2 ≤ p.2)
    ((uniqueInOrder nonNa).map (fun v => (v, nonNa.count v)))

/-- The `valid_types` list of `validate_type_distribution`, verbatim from the
source: the strings and integers 0..5 and six combination strings. -/
def validTypes : List Cell :=
  [.str "0", .str "1", .str "2", .str "3", .str "4", .str "5",
   .int 0, .int 1, .int 2, .int 3, .int 4, .int 5,
   .str "1; 2", .str "2; 3", .str "3; 4", .str "4; 5", .str "1; 5", .str "2; 5"]

/-- Bracketed rendering of a cell list (Python `repr` quoting omitted). -/
def renderCellList (l : List Cell) : String :=
  "[" ++ String.intercalate ", " (l.map cellStr) ++ "]"

def msgInvalidTypes (l : List Cell) : String :=
  "ERROR: Invalid perturbation types found: " ++ renderCellList l ++
  ". Valid types are 1-5 (or combinations like \"2; 5\")."

def msgHomogeneous (n : ℕ) (dominant : Cell) : String :=
  "⚠️  HOMOGENEOUS TYPES: All " ++ toString n ++ " perturbations are Type " ++
  cellStr dominant ++
  ". While this is possible, it is unusual. Please verify this reflects the actual meeting dynamics."

/-- The `max_type/total*100:.0f` of the source is rendered by truncating
integer division. -/
def msgDominant (maxT tot : ℕ) : String :=
  "⚠️  DOMINANT TYPE: " ++ toString maxT ++ "/" ++ toString tot ++ " (" ++
  toString (100 * maxT / tot) ++
  "%) perturbations are of one type. This may be legitimate, but please verify diversity of classifications."

/-- `validate_type_distribution(self)`. The unguarded `self.df[flag_col]`
raises `KeyError` when neither flag column exists. -/
def validate_type_distribution (t : Table) (f : Findings) : Except String (Bool × Findings) :=
  match resolveTypeCol t with
  | none => .ok (true, addWarning f "⚠️  WARNING: No perturbation_type column found")
  | some tc =>
      match t.getCol (flagColName t) with
      | none => .error ("KeyError: " ++ flagColName t)
      | some flags =>
          match t.getCol tc with
          | none => .error ("KeyError: " ++ tc)
          | some types =>
              let pert_types := filterByFlag flags types
              if pert_types.length = 0 then .ok (true, f)
              else
                let type_counts := value_counts pert_types
                let invalid_types := (type_counts.map (fun p => p.1)).filter
                  (fun c => !(validTypes.contains c) && !c.isNa)
                if invalid_types = [] then
                  let f1 :=
                    if type_counts.length = 1 ∧ pert_types.length > 10 then
                      addWarning f (msgHomogeneous pert_types.length
                        ((type_counts.headD (.na, 0)).1))
                    else f
                  let f2 :=
                    if type_counts.length > 1 then
                      let maxT : ℕ := (type_counts.headD (.na, 0)).2
                      let tot : ℕ := (type_counts.map (fun p => p.2)).sum
                      -- max_type / total > 0.8, exactly: 5 * max_type > 4 * total
                      if 5 * maxT > 4 * tot ∧ tot > 10 then
                        addWarning f1 (msgDominant maxT tot)
                      else f1
                    else f1
                  .ok (true, f2)
                else .ok (false, addError f (msgInvalidTypes invalid_types))

/-- The lazy scan `.*?(\d+)` after the second keyword: the first digit run
on the current line, if any before the line break. -/
def scanDigits : List Char → Option (List Char)
  | [] => none
  | c :: rest =>
      if c.isDigit then some (c :: rest.takeWhile (fun d => d.isDigit))
      else if c = '\n' then none
      else scanDigits rest

/-- The scan for `[Pp]erturbations.*?(\d+)` on the current line, with the
backtracking of the lazy `.*?`: at each candidate start, if no digit run
follows on the line, scanning resumes one character further. -/
def scanPerturb : List Char → Option (List Char)
  | [] => none
  | c :: rest =>
      if (c = 'P' ∨ c = 'p') ∧ rest.take 12 = "erturbations".toList then
        match scanDigits (rest.drop 12) with
        | some ds => some ds
        | none => scanPerturb rest
      else if c = '\n' then none
      else scanPerturb rest

/-- `re.search(r'[Tt]otal.*?[Pp]erturbations.*?(\d+)', content)`: the digits
captured at the leftmost successful start; the two `.*?` gaps cannot cross a
line break (`.` does not match a newline), while the start scan can. -/
def scanTotal : List Char → Option (List Char)
  | [] => none
  | c :: rest =>
      if (c = 'T' ∨ c = 't') ∧ rest.take 4 = "otal".toList then
        match scanPerturb (rest.drop 4) with
        | some ds => some ds
        | none => scanTotal rest
      else scanTotal rest

/-- `int(...)` on the captured digit run. -/
def digitsToNat (ds : List Char) : ℕ :=
  ds.foldl (fun n c => 10 * n + (c.toNat - ('0').toNat)) 0

def msgMismatch (textCount csvCount : ℕ) : String :=
  "ERROR: Text-CSV mismatch. Markdown reports " ++ toString textCount ++
  " perturbations, but CSV has " ++ toString csvCount ++ ". These MUST match."

def msgVerified (n : ℕ) : String :=
  "✓ Text-CSV consistency verified: " ++ toString n ++ " perturbations"

/-- `validate_text_csv_consistency(self)`: `doc` is the content of the
markdown file when provided and readable, else `none`. -/
def validate_text_csv_consistency (t : Table) (doc : Option String) (f : Findings) :
    Bool × Findings :=
  match doc with
  | none => (true, addInfo f "ℹ️  No markdown file provided for text-CSV consistency check")
  | some content =>
      match scanTotal content.data with
      | some ds =>
          let text_count := digitsToNat ds
          let c := count_perturbations t f
          if text_count = c.1 then (true, addInfo c.2 (msgVerified text_count))
          else (false, addError c.2 (msgMismatch text_count c.1))
      | none =>
          (true, addWarning f "⚠️  Could not extract perturbation count from markdown for verification")

def msgMissingJust (missing tot : ℕ) : String :=
  "⚠️  MISSING JUSTIFICATIONS: " ++ toString missing ++ "/" ++ toString tot ++
  " perturbations have no description/justification. Each perturbation should be justified."

def msgWeakJust (short tot : ℕ) : String :=
  "⚠️  WEAK JUSTIFICATIONS: " ++ toString short ++ "/" ++ toString tot ++
  " perturbations have very short descriptions (<20 chars). Justifications should include textual evidence."

/-- `validate_justifications(self)`. The unguarded `self.df[flag_col]`
raises `KeyError` when a description column is present but neither flag
column exists. -/
def validate_justifications (t : Table) (f : Findings) : Except String (Bool × Findings) :=
  match t.getCol "event_description" with
  | none =>
      .ok (true, addWarning f "⚠️  No event_description column found. Cannot verify justifications.")
  | some descs =>
      match t.getCol (flagColName t) with
      | none => .error ("KeyError: " ++ flagColName t)
      | some flags =>
          let pert_descs := filterByFlag flags descs
          if pert_descs.length = 0 then .ok (true, f)
          else
            let empty_descriptions := pert_descs.countP (fun c => c.isNa)
            let short_descriptions := pert_descs.countP (fun c => (cellStr c).length < 20)
            let f1 :=
              if empty_descriptions > 0 then
                addWarning f (msgMissingJust empty_descriptions pert_descs.length)
              else f
            let f2 :=
              -- short_descriptions > len(pert_df) * 0.5, exactly doubled
              if 2 * short_descriptions > pert_descs.length then
                addWarning f1 (msgWeakJust short_descriptions pert_descs.length)
              else f1
            .ok (true, f2)

def msgFlat (tot : ℕ) : String :=
  "⚠️  FLAT STRUCTURE: Only 1 episode for " ++ toString tot ++
  " events. The transcript should be segmented into multiple coherent episodes."

def msgOverseg (n : ℕ) : String :=
  "⚠️  OVER-SEGMENTATION: Each event is in its own episode (" ++ toString n ++
  " episodes). Episodes should group related events into coherent segments."

def msgEpisodeInfo (n tot : ℕ) : String :=
  "✓ Episode structure: " ++ toString n ++ " episodes for " ++ toString tot ++ " events"

/-- `validate_episode_structure(self)`; `nunique()` counts distinct
non-missing values. -/
def validate_episode_structure (t : Table) (f : Findings) : Bool × Findings :=
  match t.getCol "episode_id" with
  | none => (true, f)
  | some col =>
      let unique_episodes := (uniqueInOrder (col.filter (fun c => !c.isNa))).length
      let total_events := t.nrows
      if unique_episodes = 1 ∧ total_events > 20 then
        (true, addWarning f (msgFlat total_events))
      else if unique_episodes = total_events then
        (true, addWarning f (msgOverseg unique_episodes))
      else
        (true, addInfo f (msgEpisodeInfo unique_episodes total_events))

/-- `run_all_validations(self)`: runs the six checks in source order over the
accumulator state `f` (empty for a fresh validator), propagating any raised
`KeyError`; `passed = all(checks) and len(self.errors) == 0`. -/
def run_all_validations (t : Table) (doc : Option String) (f : Findings) :
    Except String (Bool × Findings) :=
  let r1 := validate_required_columns t f
  let r2 := validate_perturbation_rate t r1.2
  match validate_type_distribution t r2.2 with
  | .error e => .error e
  | .ok r3 =>
      let r4 := validate_text_csv_consistency t doc r3.2
      match validate_justifications t r4.2 with
      | .error e => .error e
      | .ok r5 =>
          let r6 := validate_episode_structure t r5.2
          .ok (r1.1 && r2.1 && r3.1 && r4.1 && r5.1 && r6.1 && r6.2.errors.isEmpty, r6.2)

/-- Modelled from the spec: the closed set of valid perturbation types the
specification describes — 1..5 in string or integer representation and the
pairwise combinations "a; b" of two distinct types. Written only for
comparison against the source's `validTypes` list. -/
def claimedValidType : Cell → Bool
  | .int n => 1 ≤ n && n ≤ 5
  | .str s =>
      (["1", "2", "3", "4", "5"] : List String).contains s ||
      (["1; 2", "1; 3", "1; 4", "1; 5", "2; 3", "2; 4", "2; 5", "3; 4", "3; 5",
        "4; 5"] : List String).contains s
  | .na => true

/-- Modelled from the spec: case-insensitive prefix test for a lower-case
ASCII keyword (each letter accepted in either case). -/
def matchesCI : List Char → List Char → Bool
  | [], _ => true
  | _ :: _, [] => false
  | p :: ps, c :: cs =>
      (decide (c = p) || decide (c.toNat + 32 = p.toNat)) && matchesCI ps cs

/-- Modelled from the spec: the tail of the phrase — "perturbations" in any
letter case, then the first integer, with the same gap discipline as the
source scan. -/
def scanPerturbCI : List Char → Option (List Char)
  | [] => none
  | c :: rest =>
      if matchesCI "perturbations".toList (c :: rest) then
        match scanDigits ((c :: rest).drop 13) with
        | some ds => some ds
        | none => scanPerturbCI rest
      else if c = '\n' then none
      else scanPerturbCI rest

/-- Modelled from the spec: "a human-readable phrase matching total …
perturbations … integer (case-insensitive, word order: total precedes
perturbations precedes the number)" — the source's scan made insensitive to
the case of every letter of both keywords. -/
def scanTotalCI : List Char → Option (List Char)
  | [] => none
  | c :: rest =>
      if matchesCI "total".toList (c :: rest) then
        match scanPerturbCI ((c :: rest).drop 5) with
        | some ds => some ds
        | none => scanTotalCI rest
      else scanTotalCI rest

/-- The transcript of the specification's worked scenario. -/
def exampleTranscript : List TranscriptEntry :=
  [⟨"Alice", 0⟩, ⟨"Bob", 5⟩, ⟨"Alice", 12⟩, ⟨"Charlie", 18⟩, ⟨"Bob", 25⟩, ⟨"Alice", 30⟩]

/-- A transcript with a duplicated start time. -/
def dupTranscript : List TranscriptEntry := [⟨"A", 1⟩, ⟨"B", 1⟩]

/-- A well-formed classification table: two events, one flagged perturbation
of type 2 with a long description. -/
def tableGood : Table :=
  ⟨2, [("episode_id", [.int 1, .int 1]), ("event_id", [.int 1, .int 2]),
       ("perturbation_flag", [.str "yes", .str "no"]),
       ("perturbation_type", [.int 2, .na]),
       ("event_description", [.str "a justification long enough to pass", .na])]⟩

/-- A table whose flag column exists only under the capitalized name. -/
def tableCapFlag : Table :=
  ⟨1, [("episode_id", [.int 1]), ("event_id", [.int 1]),
       ("Perturbation_Flag", [.str "yes"])]⟩

/-- A table carrying both capitalizations of the flag column, disagreeing. -/
def tableBothFlags : Table :=
  ⟨1, [("episode_id", [.int 1]), ("event_id", [.int 1]),
       ("perturbation_flag", [.str "no"]), ("Perturbation_Flag", [.str "yes"])]⟩

/-- A table with one flagged row whose type is the combination "1; 3". -/
def tableCombo13 : Table :=
  ⟨1, [("episode_id", [.int 1]), ("event_id", [.int 1]),
       ("perturbation_flag", [.str "yes"]), ("perturbation_type", [.str "1; 3"])]⟩

/-- A table with a type column but no flag column under either name. -/
def tableNoFlag : Table :=
  ⟨1, [("episode_id", [.int 1]), ("event_id", [.int 1]),
       ("perturbation_type", [.int 2])]⟩

/-- A single-row table whose only episode_id cell is missing. -/
def tableNaEpisode : Table := ⟨1, [("episode_id", [.na])]⟩

/-- A single-row table with a present episode_id value. -/
def tableOneRow : Table := ⟨1, [("episode_id", [.int 7])]⟩

/-- A summary line in upper case. -/
def docAllCaps : String := "TOTAL PERTURBATIONS: 7"

instance {ε α : Type} [DecidableEq ε] [DecidableEq α] : DecidableEq (Except ε α) :=
  fun a b =>
    match a, b with
    | .error e, .error e' =>
        match decEq e e' with
        | isTrue h => isTrue (by rw [h])
        | isFalse h => isFalse (by intro hc; cases hc; exact h rfl)
    | .ok v, .ok v' =>
        match decEq v v' with
        | isTrue h => isTrue (by rw [h])
        | isFalse h => isFalse (by intro hc; cases hc; exact h rfl)
    | .error _, .ok _ => isFalse (by intro hc; cases hc)
    | .ok _, .error _ => isFalse (by intro hc; cases hc)

instance : IsTotal TranscriptEntry (fun a b => a.start_time ≤ b.start_time) :=
  ⟨fun a b => le_total a.start_time b.start_time⟩

instance : IsTrans TranscriptEntry (fun a b => a.start_time ≤ b.start_time) :=
  ⟨fun _ _ _ => le_trans⟩

theorem writeBlockAux_length (s : String) (lo hi : ℤ) :
    ∀ (tl : List (Option String)) (pos : ℕ), (writeBlockAux s lo hi pos tl).length = tl.length := by
  intro tl
  induction tl with
  | nil => intro pos; rfl
  | cons v rest ih => intro pos; simp [writeBlockAux, ih]

theorem writeBlockAux_getElem? (s : String) (lo hi : ℤ) :
    ∀ (tl : List (Option String)) (pos i : ℕ), i < tl.length →
      (writeBlockAux s lo hi pos tl)[i]? =
        if lo ≤ (pos + i : ℤ) ∧ (pos + i : ℤ) < hi then some (some s) else tl[i]? := by
  intro tl
  induction tl with
  | nil => intro pos i h; simp at h
  | cons v rest ih =>
    intro pos i h
    cases i with
    | zero =>
      simp only [writeBlockAux, List.getElem?_cons_zero, Nat.cast_zero, add_zero]
      split <;> rfl
    | succ k =>
      have hk : k < rest.length := by simpa using h
      have := ih (pos + 1) k hk
      simp only [writeBlockAux, List.getElem?_cons_succ, this]
      have harith : ((pos : ℤ) + 1 + k) = ((pos : ℤ) + (k + 1)) := by ring
      rw [show ((pos + 1 : ℕ) : ℤ) = (pos : ℤ) + 1 by norm_cast]
      rw [harith]
      norm_cast

theorem writeBlock_length (tl : List (Option String)) (lo hi : ℤ) (s : String) :
    (writeBlock tl lo hi s).length = tl.length :=
  writeBlockAux_length s lo hi tl 0

theorem writeBlock_getElem? (tl : List (Option String)) (lo hi : ℤ) (s : String)
    (i : ℕ) (h : i < tl.length) :
    (writeBlock tl lo hi s)[i]? =
      if lo ≤ (i : ℤ) ∧ (i : ℤ) < hi then some (some s) else tl[i]? := by
  have := writeBlockAux_getElem? s lo hi tl 0 i h
  simpa using this

theorem assignLoop_length (rate L : ℕ) :
    ∀ (es : List TranscriptEntry) (tl : List (Option String)),
      (assignLoop rate L es tl).length = tl.length := by
  intro es
  induction es with
  | nil => intro tl; rfl
  | cons e tail ih =>
    intro tl
    cases tail with
    | nil => simp [assignLoop, writeBlock_length]
    | cons e' rest => simp [assignLoop, ih, writeBlock_length]

theorem findCover_eq_none (rate L i : ℕ) :
    ∀ es : List TranscriptEntry, (∀ e ∈ es, (i : ℤ) < stepIdx rate e) →
      findCover rate L i es = none := by
  intro es
  induction es with
  | nil => intro _; rfl
  | cons e tail ih =>
    intro h
    cases tail with
    | nil =>
      have hne : ¬ (stepIdx rate e ≤ (i : ℤ) ∧ (i : ℤ) < (L : ℤ)) := by
        intro hc
        exact absurd hc.1 (not_le.mpr (h e (by simp)))
      simp only [findCover]
      rw [if_neg hne]
    | cons e' rest =>
      have hne : ¬ (stepIdx rate e ≤ (i : ℤ) ∧ (i : ℤ) < stepIdx rate e') := by
        intro hc
        exact absurd hc.1 (not_le.mpr (h e (by simp)))
      simp only [findCover, if_neg hne]
      exact ih (fun f hf => h f (by simp [hf]))

theorem assignLoop_getElem? (rate L : ℕ) :
    ∀ (es : List TranscriptEntry),
      es.Pairwise (fun a b => stepIdx rate a ≤ stepIdx rate b) →
      ∀ (tl : List (Option String)) (i : ℕ), i < tl.length →
        (assignLoop rate L es tl)[i]? =
          (findCover rate L i es).elim tl[i]? (fun spk => some (some spk)) := by
  intro es
  induction es with
  | nil => intro _ tl i h; rfl
  | cons e tail ih =>
    intro hp tl i h
    cases tail with
    | nil =>
      simp only [assignLoop, findCover]
      rw [writeBlock_getElem? tl _ _ _ i h]
      split
      · rfl
      · rfl
    | cons e' rest =>
      have hptail : (e' :: rest).Pairwise (fun a b => stepIdx rate a ≤ stepIdx rate b) :=
        hp.of_cons
      have hlen : i < (writeBlock tl (stepIdx rate e) (stepIdx rate e') e.speaker_id).length := by
        rwa [writeBlock_length]
      have hrec := ih hptail (writeBlock tl (stepIdx rate e) (stepIdx rate e') e.speaker_id) i hlen
      simp only [assignLoop, findCover]
      rw [hrec, writeBlock_getElem? tl _ _ _ i h]
      by_cases hc : stepIdx rate e ≤ (i : ℤ) ∧ (i : ℤ) < stepIdx rate e'
      · have hnone : findCover rate L i (e' :: rest) = none := by
          apply findCover_eq_none
          intro f hf
          have he' : stepIdx rate e' ≤ stepIdx rate f := by
            rcases List.mem_cons.mp hf with hf | hf
            · rw [hf]
            · exact (List.pairwise_cons.mp hptail).1 f hf
          exact lt_of_lt_of_le hc.2 he'
        simp [hnone, hc]
      · simp only [if_neg hc]

theorem findCover_pair (rate L i : ℕ) :
    ∀ (es : List TranscriptEntry),
      es.Pairwise (fun a b => stepIdx rate a ≤ stepIdx rate b) →
      ∀ (j : ℕ) (e e' : TranscriptEntry), es[j]? = some e → es[j + 1]? = some e' →
        stepIdx rate e ≤ (i : ℤ) → (i : ℤ) < stepIdx rate e' →
        findCover rate L i es = some e.speaker_id := by
  intro es
  induction es with
  | nil => intro _ j e e' hj; simp at hj
  | cons a tail ih =>
    intro hp j e e' hj hj1 hle hlt
    cases j with
    | zero =>
      have hea : e = a := by simpa using hj.symm
      subst hea
      cases tail with
      | nil => simp at hj1
      | cons b rest =>
        have heb : e' = b := by simpa using hj1.symm
        subst heb
        simp only [findCover]
        rw [if_pos ⟨hle, hlt⟩]
    | succ k =>
      have hjt : tail[k]? = some e := by simpa using hj
      have hjt1 : tail[k + 1]? = some e' := by simpa using hj1
      cases tail with
      | nil => simp at hjt
      | cons b rest =>
        have hbe : stepIdx rate b ≤ stepIdx rate e := by
          cases k with
          | zero =>
            have : b = e := by simpa using hjt
            rw [this]
          | succ m =>
            have hmem : e ∈ rest := by
              have : rest[m]? = some e := by simpa using hjt
              exact List.getElem?_mem this
            exact (List.pairwise_cons.mp hp.of_cons).1 e hmem
        have hne : ¬ (stepIdx rate a ≤ (i : ℤ) ∧ (i : ℤ) < stepIdx rate b) := by
          rintro ⟨_, hib⟩
          exact absurd (lt_of_lt_of_le hib (le_trans hbe hle)) (lt_irrefl _)
        simp only [findCover]
        rw [if_neg hne]
        exact ih hp.of_cons k e e' hjt hjt1 hle hlt

theorem findCover_last (rate L i : ℕ) :
    ∀ (es : List TranscriptEntry),
      es.Pairwise (fun a b => stepIdx rate a ≤ stepIdx rate b) →
      ∀ e : TranscriptEntry, es.getLast? = some e →
        stepIdx rate e ≤ (i : ℤ) → (i : ℤ) < (L : ℤ) →
        findCover rate L i es = some e.speaker_id := by
  intro es
  induction es with
  | nil => intro _ e he; simp at he
  | cons a tail ih =>
    intro hp e he hle hlt
    cases tail with
    | nil =>
      have hea : e = a := by simpa using he.symm
      subst hea
      simp only [findCover]
      rw [if_pos ⟨hle, hlt⟩]
    | cons b rest =>
      have het : (b :: rest).getLast? = some e := by
        rw [← List.getLast?_cons_cons]
        exact he
      have hmem : e ∈ b :: rest := List.mem_of_mem_getLast? het
      have hbe : stepIdx rate b ≤ stepIdx rate e := by
        rcases List.mem_cons.mp hmem with hh | hh
        · rw [hh]
        · exact (List.pairwise_cons.mp hp.of_cons).1 e hh
      have hne : ¬ (stepIdx rate a ≤ (i : ℤ) ∧ (i : ℤ) < stepIdx rate b) := by
        rintro ⟨_, hib⟩
        exact absurd (lt_of_lt_of_le hib (le_trans hbe hle)) (lt_irrefl _)
      simp only [findCover]
      rw [if_neg hne]
      exact ih hp.of_cons e het hle hlt

theorem sortTranscript_perm (l : List TranscriptEntry) : List.Perm (sortTranscript l) l :=
  List.perm_insertionSort _ l

theorem sortTranscript_sorted (l : List TranscriptEntry) :
    (sortTranscript l).Pairwise (fun a b => a.start_time ≤ b.start_time) :=
  List.sorted_insertionSort _ l

theorem pyInt_of_nonneg {q : ℚ} (h : 0 ≤ q) : pyInt q = ⌊q⌋ := if_pos h

theorem stepIdx_nonneg {rate : ℕ} {e : TranscriptEntry} (h : 0 ≤ e.start_time) :
    0 ≤ stepIdx rate e := by
  unfold stepIdx
  have hq : (0 : ℚ) ≤ e.start_time * rate := mul_nonneg h (by positivity)
  rw [pyInt_of_nonneg hq]
  exact Int.floor_nonneg.mpr hq

theorem stepIdx_mono {rate : ℕ} {a b : TranscriptEntry} (ha : 0 ≤ a.start_time)
    (hab : a.start_time ≤ b.start_time) : stepIdx rate a ≤ stepIdx rate b := by
  unfold stepIdx
  have h1 : (0 : ℚ) ≤ a.start_time * rate := mul_nonneg ha (by positivity)
  have h2 : (0 : ℚ) ≤ b.start_time * rate := mul_nonneg (le_trans ha hab) (by positivity)
  rw [pyInt_of_nonneg h1, pyInt_of_nonneg h2]
  exact Int.floor_le_floor (mul_le_mul_of_nonneg_right hab (by positivity))

theorem le_listMax : ∀ (l : List ℚ), ∀ x ∈ l, x ≤ listMax l := by
  intro l
  induction l with
  | nil => intro x hx; simp at hx
  | cons a rest ih =>
    intro x hx
    cases rest with
    | nil =>
      have : x = a := by simpa using hx
      rw [this, listMax]
    | cons b rest' =>
      rcases List.mem_cons.mp hx with hh | hh
      · rw [hh, listMax]; exact le_max_left _ _
      · exact le_trans (ih x hh) (le_max_right _ _)

theorem stepIdx_lt_timelineLen_none {rate : ℕ} (hrate : 1 ≤ rate)
    (es : List TranscriptEntry) (hpos : ∀ e ∈ es, 0 ≤ e.start_time) :
    ∀ e ∈ es, stepIdx rate e < (timelineLen es rate none : ℤ) := by
  intro e he
  set m : ℚ := listMax (es.map (fun e => e.start_time)) with hm
  have hem : e.start_time ≤ m :=
    le_listMax _ _ (List.mem_map_of_mem (fun e => e.start_time) he)
  have h0m : 0 ≤ m := le_trans (hpos e he) hem
  have hratepos : (0 : ℚ) < rate := by exact_mod_cast Nat.lt_of_lt_of_le Nat.zero_lt_one hrate
  have hstep : stepIdx rate e ≤ ⌊m * rate⌋ := by
    unfold stepIdx
    rw [pyInt_of_nonneg (mul_nonneg (hpos e he) (le_of_lt hratepos))]
    exact Int.floor_le_floor (mul_le_mul_of_nonneg_right hem (le_of_lt hratepos))
  have hfloor : ⌊m * rate⌋ < (⌊m⌋ + 1) * rate := by
    rw [Int.floor_lt]
    push_cast
    exact mul_lt_mul_of_pos_right (Int.lt_floor_add_one m) hratepos
  have hmt : maxTime es none = ⌊m⌋ + 1 := by
    simp only [maxTime, ← hm]
    rw [pyInt_of_nonneg h0m]
  have hlt : stepIdx rate e < maxTime es none * rate :=
    lt_of_le_of_lt hstep (by rw [hmt]; exact hfloor)
  have hnn : 0 ≤ maxTime es none * rate :=
    le_trans (stepIdx_nonneg (hpos e he)) (le_of_lt hlt)
  unfold timelineLen
  rwa [Int.toNat_of_nonneg hnn]

/-- C1: for every valid transcript (non-empty, unique start times, hence
strictly increasing after sorting, all non-negative per the data model) and
every sampling rate and meeting duration that does not truncate the transcript
(the default `meeting_duration = None` always qualifies, by
`stepIdx_lt_timelineLen_none`), `build_lsh_timeseries` succeeds and produces
a timeline which (a) is a list with exactly one speaker label at each of the
contiguous indices `0 .. len-1`, where (b) for every consecutive sorted pair
`(e, e')` all indices in `[stepIdx e, stepIdx e')` carry `e.speaker_id`,
(c) every index before `stepIdx` of the first entry carries `"SILENCE"`, and
(d) the last entry's speaker extends from its own step index through the
final index of the produced sequence. -/
theorem build_lsh_timeseries_correct (transcript : List TranscriptEntry) (rate : ℕ)
    (duration : Option ℤ)
    (hne : transcript ≠ [])
    (hnodup : (transcript.map (fun e => e.start_time)).Nodup)
    (hpos : ∀ e ∈ transcript, 0 ≤ e.start_time)
    (hrate : 1 ≤ rate)
    (hdur : duration = none ∨ ∀ e ∈ sortTranscript transcript,
      stepIdx rate e < (timelineLen (sortTranscript transcript) rate duration : ℤ)) :
    ∃ tl : List String,
      build_lsh_timeseries transcript rate duration = .ok tl ∧
      tl.length = timelineLen (sortTranscript transcript) rate duration ∧
      (∀ i, i < tl.length → ∃ s, tl[i]? = some s) ∧
      (∀ (j : ℕ) (e e' : TranscriptEntry),
        (sortTranscript transcript)[j]? = some e →
        (sortTranscript transcript)[j + 1]? = some e' →
        ∀ i : ℕ, stepIdx rate e ≤ (i : ℤ) → (i : ℤ) < stepIdx rate e' →
          tl[i]? = some e.speaker_id) ∧
      (∀ e : TranscriptEntry, (sortTranscript transcript)[0]? = some e →
        ∀ i : ℕ, (i : ℤ) < stepIdx rate e → tl[i]? = some "SILENCE") ∧
      (∀ e : TranscriptEntry, (sortTranscript transcript).getLast? = some e →
        ∀ i : ℕ, stepIdx rate e ≤ (i : ℤ) → i < tl.length → tl[i]? = some e.speaker_id) := by
  classical
  set es := sortTranscript transcript with hes
  have hperm : List.Perm es transcript := sortTranscript_perm transcript
  have hsort := sortTranscript_sorted transcript
  have hposes : ∀ e ∈ es, 0 ≤ e.start_time := fun e he => hpos e (hperm.mem_iff.mp he)
  have hdur' : ∀ e ∈ es, stepIdx rate e < (timelineLen es rate duration : ℤ) := by
    rcases hdur with h | h
    · subst h; exact stepIdx_lt_timelineLen_none hrate es hposes
    · exact h
  have hnd : (es.map (fun e => e.start_time)).Nodup :=
    ((hperm.map (fun e => e.start_time)).nodup_iff).mpr hnodup
  have hchain : (es.map (fun e => e.start_time)).Chain' (fun a b => a ≤ b) := by
    apply List.Pairwise.chain'
    exact (List.pairwise_map).mpr (by exact hsort)
  set L := timelineLen es rate duration with hL
  set A := assignLoop rate L es (List.replicate L (none : Option String)) with hA
  set tl := A.map (fun v => v.getD "SILENCE") with htl
  have hbuild : build_lsh_timeseries transcript rate duration = .ok tl := by
    simp only [build_lsh_timeseries, ← hes]
    rw [if_neg hne, if_pos hnd, if_pos hchain]
  have hmono : es.Pairwise (fun a b => stepIdx rate a ≤ stepIdx rate b) := by
    refine List.Pairwise.imp_of_mem ?_ hsort
    intro a b ha _ hab
    exact stepIdx_mono (hposes a ha) hab
  have hAlen : A.length = L := by
    rw [hA, assignLoop_length, List.length_replicate]
  have hlen : tl.length = L := by rw [htl, List.length_map, hAlen]
  have hpoint : ∀ i : ℕ, i < L →
      A[i]? = (findCover rate L i es).elim (some none) (fun spk => some (some spk)) := by
    intro i hi
    have hrepl : i < (List.replicate L (none : Option String)).length := by
      rwa [List.length_replicate]
    rw [hA, assignLoop_getElem? rate L es hmono _ i hrepl]
    rw [List.getElem?_replicate, if_pos hi]
  refine ⟨tl, hbuild, hlen, ?_, ?_, ?_, ?_⟩
  · intro i hi
    exact ⟨tl[i], List.getElem?_eq_getElem hi⟩
  · intro j e e' hj hj1 i hle hlt
    have he'mem : e' ∈ es := List.getElem?_mem hj1
    have hiL : i < L := by
      have : (i : ℤ) < (L : ℤ) := lt_trans hlt (hdur' e' he'mem)
      exact_mod_cast this
    have hcov : findCover rate L i es = some e.speaker_id :=
      findCover_pair rate L i es hmono j e e' hj hj1 hle hlt
    rw [htl, List.getElem?_map, hpoint i hiL, hcov]
    rfl
  · intro e hj i hlt
    have hemem : e ∈ es := List.getElem?_mem hj
    have hiL : i < L := by
      have : (i : ℤ) < (L : ℤ) := lt_trans hlt (hdur' e hemem)
      exact_mod_cast this
    have hcov : findCover rate L i es = none := by
      cases hces : es with
      | nil => rw [hces] at hj; simp at hj
      | cons a rest =>
        rw [hces] at hj
        have hea : e = a := by simpa using hj.symm
        apply findCover_eq_none
        intro f hf
        rcases List.mem_cons.mp hf with hh | hh
        · rw [hh, ← hea]; exact hlt
        · have haf : stepIdx rate a ≤ stepIdx rate f :=
            (List.pairwise_cons.mp (hces ▸ hmono)).1 f hh
          exact lt_of_lt_of_le (hea ▸ hlt) haf
    rw [htl, List.getElem?_map, hpoint i hiL, hcov]
    rfl
  · intro e hlast i hle hiL'
    have hiL : i < L := by rwa [hlen] at hiL'
    have hcov : findCover rate L i es = some e.speaker_id := by
      apply findCover_last rate L i es hmono e hlast hle
      exact_mod_cast hiL
    rw [htl, List.getElem?_map, hpoint i hiL, hcov]
    rfl

theorem appendF_empty_right (f : Findings) : appendF f emptyFindings = f := by
  simp [appendF, emptyFindings]

theorem appendF_empty_left (g : Findings) : appendF emptyFindings g = g := by
  simp [appendF, emptyFindings]

theorem appendF_addError (f g : Findings) (m : String) :
    appendF f (addError g m) = addError (appendF f g) m := by
  simp [appendF, addError]

theorem appendF_addWarning (f g : Findings) (m : String) :
    appendF f (addWarning g m) = addWarning (appendF f g) m := by
  simp [appendF, addWarning]

theorem appendF_addInfo (f g : Findings) (m : String) :
    appendF f (addInfo g m) = addInfo (appendF f g) m := by
  simp [appendF, addInfo]

theorem count_perturbations_delta (t : Table) (f : Findings) :
    count_perturbations t f =
      ((count_perturbations t emptyFindings).1,
        appendF f (count_perturbations t emptyFindings).2) := by
  unfold count_perturbations
  cases t.getCol "perturbation_flag" with
  | some col => simp [appendF_empty_right]
  | none =>
      cases t.getCol "Perturbation_Flag" with
      | some col => simp [appendF_empty_right]
      | none => simp [appendF_addError, appendF_empty_right]

theorem validate_required_columns_delta (t : Table) (f : Findings) :
    validate_required_columns t f =
      ((validate_required_columns t emptyFindings).1,
        appendF f (validate_required_columns t emptyFindings).2) := by
  simp only [validate_required_columns]
  split_ifs <;> simp [appendF_addError, appendF_empty_right]

theorem validate_perturbation_rate_delta (t : Table) (f : Findings) :
    validate_perturbation_rate t f =
      ((validate_perturbation_rate t emptyFindings).1,
        appendF f (validate_perturbation_rate t emptyFindings).2) := by
  simp only [validate_perturbation_rate]
  rw [count_perturbations_delta t f]
  split_ifs <;>
    simp [appendF_addError, appendF_addWarning, appendF_addInfo, appendF_empty_right,
      appendF_empty_left]

theorem validate_type_distribution_delta (t : Table) (f : Findings) :
    validate_type_distribution t f =
      (validate_type_distribution t emptyFindings).map (fun r => (r.1, appendF f r.2)) := by
  simp only [validate_type_distribution]
  cases hrt : resolveTypeCol t with
  | none => simp [Except.map, appendF_addWarning, appendF_empty_right]
  | some tc =>
      cases hfc : t.getCol (flagColName t) with
      | none => simp [Except.map]
      | some flags =>
          cases htc : t.getCol tc with
          | none => simp [htc, Except.map]
          | some types =>
              simp only [htc]
              split_ifs <;>
                simp [Except.map, appendF_addError, appendF_addWarning, appendF_empty_right]

theorem validate_text_csv_consistency_delta (t : Table) (doc : Option String) (f : Findings) :
    validate_text_csv_consistency t doc f =
      ((validate_text_csv_consistency t doc emptyFindings).1,
        appendF f (validate_text_csv_consistency t doc emptyFindings).2) := by
  simp only [validate_text_csv_consistency]
  cases doc with
  | none => simp [appendF_addInfo, appendF_empty_right]
  | some content =>
      dsimp only
      split
      next ds hsc =>
        rw [count_perturbations_delta t f]
        split_ifs <;>
          simp [appendF_addError, appendF_addInfo, appendF_empty_right, appendF_empty_left]
      next hsc =>
        simp [appendF_addWarning, appendF_empty_right]

theorem validate_justifications_delta (t : Table) (f : Findings) :
    validate_justifications t f =
      (validate_justifications t emptyFindings).map (fun r => (r.1, appendF f r.2)) := by
  simp only [validate_justifications]
  cases hd : t.getCol "event_description" with
  | none => simp [Except.map, appendF_addWarning, appendF_empty_right]
  | some descs =>
      dsimp only
      cases hfc : t.getCol (flagColName t) with
      | none => simp [Except.map]
      | some flags =>
          dsimp only
          split_ifs <;>
            simp [Except.map, appendF_addWarning, appendF_empty_right]

theorem validate_episode_structure_delta (t : Table) (f : Findings) :
    validate_episode_structure t f =
      ((validate_episode_structure t emptyFindings).1,
        appendF f (validate_episode_structure t emptyFindings).2) := by
  simp only [validate_episode_structure]
  cases t.getCol "episode_id" with
  | none => simp [appendF_empty_right]
  | some col =>
      dsimp only
      split_ifs <;>
        simp [appendF_addWarning, appendF_addInfo, appendF_empty_right]

/-- C2: the rule engine is deterministic in its inputs: the findings produced
by a full validation run over any accumulator state are exactly the findings
of a run over the fresh (empty) state, appended. In particular two runs of
the full validation on the same table and document (each on a freshly
constructed validator, as every caller in the source does) yield identical
error, warning and info lists both times, and even a rerun over the
accumulated state of a first run appends an identical batch of findings. -/
theorem run_all_validations_findings_deterministic (t : Table) (doc : Option String)
    (f : Findings) :
    (run_all_validations t doc f).map (fun r => r.2) =
      (run_all_validations t doc emptyFindings).map (fun r => appendF f r.2) := by
  have hassoc : ∀ a b c : Findings, appendF (appendF a b) c = appendF a (appendF b c) := by
    intro a b c; simp [appendF]
  simp only [run_all_validations]
  rw [validate_required_columns_delta t f]
  dsimp only
  generalize (validate_required_columns t emptyFindings).2 = E1
  rw [validate_perturbation_rate_delta t (appendF f E1),
      validate_perturbation_rate_delta t E1]
  dsimp only
  generalize (validate_perturbation_rate t emptyFindings).2 = E2
  simp only [hassoc]
  generalize appendF E1 E2 = Z2
  rw [validate_type_distribution_delta t (appendF f Z2), validate_type_distribution_delta t Z2]
  cases hr3 : validate_type_distribution t emptyFindings with
  | error e => simp [Except.map]
  | ok r3 =>
      obtain ⟨b3, F3⟩ := r3
      simp only [Except.map]
      simp only [hassoc]
      generalize appendF Z2 F3 = Z3
      rw [validate_text_csv_consistency_delta t doc (appendF f Z3),
          validate_text_csv_consistency_delta t doc Z3]
      generalize (validate_text_csv_consistency t doc emptyFindings).2 = E4
      simp only [hassoc]
      generalize appendF Z3 E4 = Z4
      rw [validate_justifications_delta t (appendF f Z4), validate_justifications_delta t Z4]
      cases hr5 : validate_justifications t emptyFindings with
      | error e => simp [Except.map]
      | ok r5 =>
          obtain ⟨b5, F5⟩ := r5
          simp only [Except.map]
          simp only [hassoc]
          generalize appendF Z4 F5 = Z5
          rw [validate_episode_structure_delta t (appendF f Z5),
              validate_episode_structure_delta t Z5]
          dsimp only
          simp only [hassoc]

theorem validate_required_columns_false (t : Table)
    (h : (validate_required_columns t emptyFindings).1 = false) :
    (validate_required_columns t emptyFindings).2.errors ≠ [] := by
  revert h
  simp only [validate_required_columns]
  split_ifs <;> simp [addError, emptyFindings]

theorem validate_perturbation_rate_false (t : Table)
    (h : (validate_perturbation_rate t emptyFindings).1 = false) :
    (validate_perturbation_rate t emptyFindings).2.errors ≠ [] := by
  revert h
  simp only [validate_perturbation_rate]
  split_ifs <;> simp [addError]

theorem validate_type_distribution_false (t : Table) (b : Bool) (g : Findings)
    (h : validate_type_distribution t emptyFindings = .ok (b, g)) (hb : b = false) :
    g.errors ≠ [] := by
  subst hb
  revert h
  simp only [validate_type_distribution]
  cases hrt : resolveTypeCol t with
  | none => intro h; simp at h
  | some tc =>
      cases hfc : t.getCol (flagColName t) with
      | none => intro h; simp at h
      | some flags =>
          cases htc : t.getCol tc with
          | none => simp only [htc]; intro h; simp at h
          | some types =>
              simp only [htc]
              split_ifs <;> intro h <;> simp at h
              simp [← h, addError, emptyFindings]

theorem validate_text_csv_consistency_false (t : Table) (doc : Option String)
    (h : (validate_text_csv_consistency t doc emptyFindings).1 = false) :
    (validate_text_csv_consistency t doc emptyFindings).2.errors ≠ [] := by
  revert h
  simp only [validate_text_csv_consistency]
  cases doc with
  | none => simp
  | some content =>
      dsimp only
      split
      · split_ifs <;> simp [addError]
      · simp

theorem validate_justifications_true (t : Table) (f : Findings) (b : Bool) (g : Findings)
    (h : validate_justifications t f = .ok (b, g)) : b = true := by
  revert h
  simp only [validate_justifications]
  cases hd : t.getCol "event_description" with
  | none => intro h; simp at h; exact h.1
  | some descs =>
      dsimp only
      cases hfc : t.getCol (flagColName t) with
      | none => intro h; simp at h
      | some flags =>
          dsimp only
          split_ifs <;> intro h <;> simp at h <;> exact h.1

theorem validate_episode_structure_true (t : Table) (f : Findings) :
    (validate_episode_structure t f).1 = true := by
  simp only [validate_episode_structure]
  cases t.getCol "episode_id" with
  | none => rfl
  | some col =>
      dsimp only
      split_ifs <;> rfl

/-- C3: whenever the full validation run on a fresh validator returns, its
pass result is `true` precisely when the accumulated error list is empty;
warnings (and info) never turn a pass into a fail. -/
theorem run_all_validations_passed_iff (t : Table) (doc : Option String)
    (b : Bool) (f6 : Findings)
    (h : run_all_validations t doc emptyFindings = .ok (b, f6)) :
    b = true ↔ f6.errors = [] := by
  simp only [run_all_validations] at h
  cases hr3 : validate_type_distribution t
      (validate_perturbation_rate t (validate_required_columns t emptyFindings).2).2 with
  | error e => rw [hr3] at h; simp at h
  | ok r3 =>
      rw [hr3] at h
      dsimp only at h
      cases hr5 : validate_justifications t
          (validate_text_csv_consistency t doc r3.2).2 with
      | error e => rw [hr5] at h; simp at h
      | ok r5 =>
          rw [hr5] at h
          dsimp only at h
          simp only [Except.ok.injEq, Prod.mk.injEq] at h
          obtain ⟨hb, hf6⟩ := h
          -- decompose the chained states through the delta lemmas
          have hd2 := validate_perturbation_rate_delta t
            (validate_required_columns t emptyFindings).2
          have hd3 := validate_type_distribution_delta t
            (validate_perturbation_rate t (validate_required_columns t emptyFindings).2).2
          rw [hr3] at hd3
          have hd4 := validate_text_csv_consistency_delta t doc r3.2
          have hd5 := validate_justifications_delta t
            (validate_text_csv_consistency t doc r3.2).2
          rw [hr5] at hd5
          have hd6 := validate_episode_structure_delta t r5.2
          constructor
          · intro hbt
            rw [hbt] at hb
            simp only [Bool.and_eq_true, List.isEmpty_iff] at hb
            rw [← hf6]
            exact hb.2
          · intro hnil
            have hfe : (validate_episode_structure t r5.2).2.errors = [] := by
              rw [hf6]; exact hnil
            have h6split : r5.2.errors = [] ∧
                (validate_episode_structure t emptyFindings).2.errors = [] := by
              apply List.append_eq_nil.mp
              rw [← hfe, hd6]
              rfl
            obtain ⟨h5nil, h6nil⟩ := h6split
            cases hr3e : validate_type_distribution t emptyFindings with
            | error e => rw [hr3e] at hd3; simp [Except.map] at hd3
            | ok p3 =>
                rw [hr3e] at hd3
                simp only [Except.map, Except.ok.injEq] at hd3
                cases hr5e : validate_justifications t emptyFindings with
                | error e => rw [hr5e] at hd5; simp [Except.map] at hd5
                | ok p5 =>
                    rw [hr5e] at hd5
                    simp only [Except.map, Except.ok.injEq] at hd5
                    -- peel the error lists stage by stage
                    have hr52 : r5.2.errors =
                        (validate_text_csv_consistency t doc r3.2).2.errors ++ p5.2.errors := by
                      rw [hd5]; rfl
                    rw [hr52] at h5nil
                    rcases List.append_eq_nil.mp h5nil with ⟨h4nil, hp5nil⟩
                    have hr42 : (validate_text_csv_consistency t doc r3.2).2.errors =
                        r3.2.errors ++ (validate_text_csv_consistency t doc emptyFindings).2.errors := by
                      rw [hd4]; rfl
                    rw [hr42] at h4nil
                    rcases List.append_eq_nil.mp h4nil with ⟨h3nil, h4enil⟩
                    have hr32 : r3.2.errors =
                        (validate_perturbation_rate t (validate_required_columns t emptyFindings).2).2.errors
                          ++ p3.2.errors := by
                      rw [hd3]; rfl
                    rw [hr32] at h3nil
                    rcases List.append_eq_nil.mp h3nil with ⟨h2nil, hp3nil⟩
                    have hr22 : (validate_perturbation_rate t (validate_required_columns t emptyFindings).2).2.errors =
                        (validate_required_columns t emptyFindings).2.errors
                          ++ (validate_perturbation_rate t emptyFindings).2.errors := by
                      rw [hd2]; rfl
                    rw [hr22] at h2nil
                    rcases List.append_eq_nil.mp h2nil with ⟨h1nil, h2enil⟩
                    -- every check booleans must be true
                    have hb1 : (validate_required_columns t emptyFindings).1 = true := by
                      cases hq : (validate_required_columns t emptyFindings).1 with
                      | false => exact absurd h1nil (validate_required_columns_false t hq)
                      | true => rfl
                    have hb2 : (validate_perturbation_rate t
                        (validate_required_columns t emptyFindings).2).1 = true := by
                      rw [hd2]
                      cases hq : (validate_perturbation_rate t emptyFindings).1 with
                      | false => exact absurd h2enil (validate_perturbation_rate_false t hq)
                      | true => rfl
                    have hb3 : r3.1 = true := by
                      rw [hd3]
                      cases hq : p3.1 with
                      | false =>
                          exact absurd hp3nil
                            (validate_type_distribution_false t p3.1 p3.2 (by rw [hr3e]) hq)
                      | true => simp [hq]
                    have hb4 : (validate_text_csv_consistency t doc r3.2).1 = true := by
                      rw [hd4]
                      cases hq : (validate_text_csv_consistency t doc emptyFindings).1 with
                      | false => exact absurd h4enil (validate_text_csv_consistency_false t doc hq)
                      | true => rfl
                    have hb5 : r5.1 = true := by
                      have hj := validate_justifications_true t emptyFindings p5.1 p5.2
                        (by rw [hr5e])
                      rw [hd5]
                      exact hj
                    have hb6 : (validate_episode_structure t r5.2).1 = true :=
                      validate_episode_structure_true t r5.2
                    rw [← hb, hb1, hb2, hb3, hb4, hb5, hb6]
                    simp [List.isEmpty_iff, hfe]

theorem mem_uniqueAux {α : Type} [DecidableEq α] :
    ∀ (l : List α) (seen : List α) (x : α),
      x ∈ uniqueAux seen l ↔ x ∈ l ∧ x ∉ seen := by
  intro l
  induction l with
  | nil => intro seen x; simp [uniqueAux]
  | cons a rest ih =>
      intro seen x
      by_cases hseen : a ∈ seen
      · rw [uniqueAux, if_pos hseen, ih]
        constructor
        · rintro ⟨hm, hn⟩
          exact ⟨List.mem_cons_of_mem a hm, hn⟩
        · rintro ⟨hm, hn⟩
          rcases List.mem_cons.mp hm with rfl | hm
          · exact absurd hseen hn
          · exact ⟨hm, hn⟩
      · rw [uniqueAux, if_neg hseen]
        constructor
        · intro hx
          rcases List.mem_cons.mp hx with rfl | hx
          · exact ⟨List.mem_cons_self _ _, hseen⟩
          · rcases (ih (a :: seen) x).mp hx with ⟨hm, hn⟩
            exact ⟨List.mem_cons_of_mem a hm, fun hxs => hn (List.mem_cons_of_mem a hxs)⟩
        · rintro ⟨hm, hn⟩
          rcases List.mem_cons.mp hm with rfl | hm
          · exact List.mem_cons_self _ _
          · by_cases hxa : x = a
            · subst hxa; exact List.mem_cons_self _ _
            · refine List.mem_cons_of_mem a ((ih (a :: seen) x).mpr ⟨hm, ?_⟩)
              intro hxs
              rcases List.mem_cons.mp hxs with h | h
              · exact hxa h
              · exact hn h

theorem mem_uniqueInOrder {α : Type} [DecidableEq α] (l : List α) (x : α) :
    x ∈ uniqueInOrder l ↔ x ∈ l := by
  unfold uniqueInOrder
  rw [mem_uniqueAux]
  simp

theorem nodup_uniqueAux {α : Type} [DecidableEq α] :
    ∀ (l : List α) (seen : List α), (uniqueAux seen l).Nodup := by
  intro l
  induction l with
  | nil => intro seen; simp [uniqueAux]
  | cons a rest ih =>
      intro seen
      by_cases hseen : a ∈ seen
      · rw [uniqueAux, if_pos hseen]
        exact ih seen
      · rw [uniqueAux, if_neg hseen]
        refine List.nodup_cons.mpr ⟨?_, ih (a :: seen)⟩
        intro hmem
        exact absurd (List.mem_cons_self a seen) ((mem_uniqueAux rest (a :: seen) a).mp hmem).2

theorem nodup_uniqueInOrder {α : Type} [DecidableEq α] (l : List α) :
    (uniqueInOrder l).Nodup := nodup_uniqueAux l []

theorem firstIdx_lt_length {α : Type} [DecidableEq α] :
    ∀ (l : List α) (x : α), x ∈ l → firstIdx l x < l.length := by
  intro l
  induction l with
  | nil => intro x hx; simp at hx
  | cons a rest ih =>
      intro x hx
      by_cases hax : a = x
      · simp [firstIdx, hax]
      · have hx' : x ∈ rest := by
          rcases List.mem_cons.mp hx with h | h
          · exact absurd h.symm hax
          · exact h
        simp only [firstIdx, if_neg hax, List.length_cons]
        exact Nat.succ_lt_succ (ih x hx')

theorem getElem?_firstIdx {α : Type} [DecidableEq α] :
    ∀ (l : List α) (x : α), x ∈ l → l[firstIdx l x]? = some x := by
  intro l
  induction l with
  | nil => intro x hx; simp at hx
  | cons a rest ih =>
      intro x hx
      by_cases hax : a = x
      · simp [firstIdx, hax]
      · have hx' : x ∈ rest := by
          rcases List.mem_cons.mp hx with h | h
          · exact absurd h.symm hax
          · exact h
        simp only [firstIdx, if_neg hax, List.getElem?_cons_succ]
        exact ih x hx'

theorem firstIdx_getElem {α : Type} [DecidableEq α] :
    ∀ (l : List α), l.Nodup → ∀ (i : ℕ) (h : i < l.length), firstIdx l (l.get ⟨i, h⟩) = i := by
  intro l
  induction l with
  | nil => intro _ i h; simp at h
  | cons a rest ih =>
      intro hnd i h
      cases i with
      | zero => simp [firstIdx]
      | succ k =>
          have hk : k < rest.length := by simpa using h
          have hm : rest.get ⟨k, hk⟩ ∈ rest := List.get_mem rest k hk
          have hne : a ≠ rest.get ⟨k, hk⟩ := by
            intro he
            exact (List.nodup_cons.mp hnd).1 (he ▸ hm)
          simp only [List.get_cons_succ, firstIdx, if_neg hne]
          rw [ih (List.nodup_cons.mp hnd).2 k hk]

theorem firstIdx_uniqueAux_lt {α : Type} [DecidableEq α] :
    ∀ (l : List α) (seen : List α) (a b : α),
      a ∈ l → a ∉ seen → b ∈ l → b ∉ seen →
      (firstIdx (uniqueAux seen l) a < firstIdx (uniqueAux seen l) b ↔
        firstIdx l a < firstIdx l b) := by
  intro l
  induction l with
  | nil => intro seen a b ha; simp at ha
  | cons c rest ih =>
      intro seen a b ha hans hb hbns
      by_cases hcs : c ∈ seen
      · rw [uniqueAux, if_pos hcs]
        have hca : ¬ c = a := fun h => hans (h ▸ hcs)
        have hcb : ¬ c = b := fun h => hbns (h ▸ hcs)
        have ha' : a ∈ rest := by
          rcases List.mem_cons.mp ha with h | h
          · exact absurd h.symm hca
          · exact h
        have hb' : b ∈ rest := by
          rcases List.mem_cons.mp hb with h | h
          · exact absurd h.symm hcb
          · exact h
        rw [ih seen a b ha' hans hb' hbns]
        simp only [firstIdx, if_neg hca, if_neg hcb, Nat.succ_lt_succ_iff]
      · rw [uniqueAux, if_neg hcs]
        by_cases hca : c = a
        · subst hca
          by_cases hcb : c = b
          · subst hcb
            simp [firstIdx]
          · simp [firstIdx, hcb]
        · by_cases hcb : c = b
          · subst hcb
            simp [firstIdx, hca]
          · have ha' : a ∈ rest := by
              rcases List.mem_cons.mp ha with h | h
              · exact absurd h.symm hca
              · exact h
            have hb' : b ∈ rest := by
              rcases List.mem_cons.mp hb with h | h
              · exact absurd h.symm hcb
              · exact h
            have hans' : a ∉ c :: seen := by
              intro h
              rcases List.mem_cons.mp h with h | h
              · exact hca h.symm
              · exact hans h
            have hbns' : b ∉ c :: seen := by
              intro h
              rcases List.mem_cons.mp h with h | h
              · exact hcb h.symm
              · exact hbns h
            simp only [firstIdx, if_neg hca, if_neg hcb, Nat.succ_lt_succ_iff]
            exact ih (c :: seen) a b ha' hans' hb' hbns'

theorem firstIdx_uniqueInOrder_lt {α : Type} [DecidableEq α] (l : List α) (a b : α)
    (ha : a ∈ l) (hb : b ∈ l) :
    firstIdx (uniqueInOrder l) a < firstIdx (uniqueInOrder l) b ↔
      firstIdx l a < firstIdx l b :=
  firstIdx_uniqueAux_lt l [] a b ha (by simp) hb (by simp)

/-- C9: `encode_speakers_numeric` produces a mapping that is a bijection
between the distinct speaker labels of the timeline (`"SILENCE"` included
whenever it occurs) and the integer range `[0, k)`: every label of the
timeline receives a code below `k`, distinct labels receive distinct codes,
every code below `k` is the code of some label, codes increase exactly in
order of first appearance in the timeline, and looking the numeric column up
in the distinct-label list recovers the original label at every step. -/
theorem encode_speakers_numeric_bijection (tl : List String) :
    (∀ s ∈ tl, (encode_speakers_numeric tl).2 s < (unique_speakers tl).length) ∧
    (∀ s ∈ tl, ∀ r ∈ tl,
      (encode_speakers_numeric tl).2 s = (encode_speakers_numeric tl).2 r → s = r) ∧
    (∀ n < (unique_speakers tl).length, ∃ s ∈ tl, (encode_speakers_numeric tl).2 s = n) ∧
    (∀ s ∈ tl, ∀ r ∈ tl,
      ((encode_speakers_numeric tl).2 s < (encode_speakers_numeric tl).2 r ↔
        firstIdx tl s < firstIdx tl r)) ∧
    (∀ (i : ℕ) (h : i < tl.length), ∃ c : ℕ,
      (encode_speakers_numeric tl).1[i]? = some c ∧
      (unique_speakers tl)[c]? = some tl[i]) := by
  have hmem : ∀ s, s ∈ unique_speakers tl ↔ s ∈ tl := fun s => mem_uniqueInOrder tl s
  refine ⟨?_, ?_, ?_, ?_, ?_⟩
  · intro s hs
    exact firstIdx_lt_length _ s ((hmem s).mpr hs)
  · intro s hs r hr he
    have h1 := getElem?_firstIdx (unique_speakers tl) s ((hmem s).mpr hs)
    have h2 := getElem?_firstIdx (unique_speakers tl) r ((hmem r).mpr hr)
    simp only [encode_speakers_numeric, speaker_map] at he
    rw [he, h2] at h1
    exact (Option.some.injEq _ _).mp h1.symm
  · intro n hn
    refine ⟨(unique_speakers tl).get ⟨n, hn⟩, ?_, ?_⟩
    · exact (hmem _).mp (List.get_mem (unique_speakers tl) n hn)
    · exact firstIdx_getElem _ (nodup_uniqueInOrder tl) n hn
  · intro s hs r hr
    exact firstIdx_uniqueInOrder_lt tl s r hs hr
  · intro i h
    refine ⟨speaker_map tl tl[i], ?_, ?_⟩
    · simp [encode_speakers_numeric, List.getElem?_eq_getElem h]
    · exact getElem?_firstIdx (unique_speakers tl) tl[i]
        ((hmem _).mpr (tl.getElem_mem h))

/-- Witness for C9 at a concrete timeline with a repeated label. -/
theorem encode_speakers_numeric_bijection_witness :
    speaker_map ["SILENCE", "A", "B", "A"] "B" < (unique_speakers ["SILENCE", "A", "B", "A"]).length ∧
    speaker_map ["SILENCE", "A", "B", "A"] "B" = 2 :=
  ⟨(encode_speakers_numeric_bijection ["SILENCE", "A", "B", "A"]).1 "B" (by decide), by decide⟩

/-- Witness for C1: the specification's worked scenario, with the default
meeting duration (`int(30) + 1 = 31` steps). -/
theorem build_lsh_timeseries_correct_witness :
    ∃ tl : List String,
      build_lsh_timeseries exampleTranscript 1 none = .ok tl ∧ tl.length = 31 := by
  obtain ⟨tl, hok, hlen, -, -, -, -⟩ :=
    build_lsh_timeseries_correct exampleTranscript 1 none (by decide) (by decide)
      (by decide) (by decide) (Or.inl rfl)
  exact ⟨tl, hok, by rw [hlen]; decide⟩

/-- C4: every invalid transcript input — empty, with duplicated start times,
or not strictly increasing after sorting by start time — makes
`build_lsh_timeseries` raise the `InvalidInput` condition (`ValueError`)
and produce no timeline output. -/
theorem build_lsh_timeseries_invalid (transcript : List TranscriptEntry) (rate : ℕ)
    (duration : Option ℤ)
    (h : transcript = [] ∨ ¬ (transcript.map (fun e => e.start_time)).Nodup ∨
      ¬ ((sortTranscript transcript).map (fun e => e.start_time)).Pairwise
          (fun a b => a < b)) :
    ∃ msg, build_lsh_timeseries transcript rate duration = .error msg := by
  by_cases hemp : transcript = []
  · refine ⟨"Input transcript_df cannot be empty.", ?_⟩
    simp [build_lsh_timeseries, hemp]
  · by_cases hnd : (transcript.map (fun e => e.start_time)).Nodup
    · exfalso
      rcases h with h | h | h
      · exact hemp h
      · exact h hnd
      · apply h
        have hsort := sortTranscript_sorted transcript
        have hmap : ((sortTranscript transcript).map (fun e => e.start_time)).Pairwise
            (fun a b => a ≤ b) := (List.pairwise_map).mpr hsort
        have hndS : ((sortTranscript transcript).map (fun e => e.start_time)).Nodup :=
          (((sortTranscript_perm transcript).map _).nodup_iff).mpr hnd
        exact (hmap.and hndS).imp (fun hab => lt_of_le_of_ne hab.1 hab.2)
    · refine ⟨"Duplicate start_time values found. Each utterance must have a unique start time.", ?_⟩
      have hndS : ¬ ((sortTranscript transcript).map (fun e => e.start_time)).Nodup := by
        intro hc
        exact hnd ((((sortTranscript_perm transcript).map _).nodup_iff).mp hc)
      simp only [build_lsh_timeseries]
      rw [if_neg hemp, if_neg hndS]

/-- Witness for C4 at a transcript with a duplicated start time. -/
theorem build_lsh_timeseries_invalid_witness :
    ∃ msg, build_lsh_timeseries dupTranscript 1 none = .error msg :=
  build_lsh_timeseries_invalid dupTranscript 1 none (Or.inr (Or.inl (by decide)))

/-- Witness for C3 at a concrete table whose run passes. -/
theorem run_all_validations_passed_iff_witness :
    ∃ (b : Bool) (f6 : Findings),
      run_all_validations tableGood none emptyFindings = .ok (b, f6) ∧
      (b = true ↔ f6.errors = []) := by
  have hrun : run_all_validations tableGood none emptyFindings = .ok (true,
      ⟨[], ["⚠️  ELEVATED RATE: 50.0% perturbation rate (1/2). This is above average but may be legitimate. Spot-check a few classifications."],
       ["ℹ️  No markdown file provided for text-CSV consistency check",
        "✓ Episode structure: 1 episodes for 2 events"]⟩) := by decide
  exact ⟨_, _, hrun, run_all_validations_passed_iff tableGood none _ _ hrun⟩

/-- C8 (code bug): on a table that has a perturbation_type column but neither
flag column, `validate_type_distribution` evaluates the unguarded
`self.df[flag_col]` and the full validation raises `KeyError` instead of
returning the three finding lists. -/
theorem run_all_validations_keyerror :
    run_all_validations tableNoFlag none emptyFindings =
      .error "KeyError: Perturbation_Flag" := by decide

/-- Counterexample to C5: on a table with episode_id, event_id and only the
capitalized Perturbation_Flag column, the required-columns check does report
a missing-column Error for the lower-case name. -/
theorem required_columns_rejects_capitalized_flag :
    validate_required_columns tableCapFlag emptyFindings =
      (false, ⟨["ERROR: Missing required columns: [perturbation_flag]"], [], []⟩) := by
  decide

/-- C5 (amended): the capitalization variant is honoured only by the
flag-count resolution, in the fixed preference order (lower-case first,
capitalized second); the required-columns check still reports a
missing-column Error for the lower-case name. -/
theorem flag_column_case_resolution :
    (∀ (t : Table) (f : Findings) (colC : List Cell),
      t.getCol "perturbation_flag" = none →
      t.getCol "Perturbation_Flag" = some colC →
      t.hasCol "episode_id" = true → t.hasCol "event_id" = true →
      count_perturbations t f = (pertCount colC, f) ∧
      (validate_required_columns t f).1 = false ∧
      (validate_required_columns t f).2.errors =
        f.errors ++ ["ERROR: Missing required columns: [perturbation_flag]"]) ∧
    (∀ (t : Table) (f : Findings) (colL : List Cell),
      t.getCol "perturbation_flag" = some colL →
      count_perturbations t f = (pertCount colL, f)) := by
  constructor
  · intro t f colC h1 h2 hEp hEv
    have hno : t.hasCol "perturbation_flag" = false := by
      unfold Table.hasCol
      rw [h1]
      rfl
    have hmiss : (["episode_id", "event_id", "perturbation_flag"]).filter
        (fun c => !(t.hasCol c)) = ["perturbation_flag"] := by
      simp [List.filter_cons, hEp, hEv, hno]
    refine ⟨?_, ?_, ?_⟩
    · unfold count_perturbations
      rw [h1, h2]
    · simp [validate_required_columns, hmiss]
    · simp only [validate_required_columns, hmiss]
      rw [if_neg (by simp)]
      rfl
  · intro t f colL h
    unfold count_perturbations
    rw [h]

/-- Witness for C5 (amended) at concrete tables: the capitalized column is
counted when it stands alone; the lower-case column wins when both exist. -/
theorem flag_column_case_resolution_witness :
    count_perturbations tableCapFlag emptyFindings = (1, emptyFindings) ∧
    count_perturbations tableBothFlags emptyFindings = (0, emptyFindings) := by
  constructor
  · have h := flag_column_case_resolution.1 tableCapFlag emptyFindings [Cell.str "yes"]
      (by decide) (by decide) (by decide) (by decide)
    rw [h.1]
    decide
  · have h := flag_column_case_resolution.2 tableBothFlags emptyFindings [Cell.str "no"]
      (by decide)
    rw [h]
    decide

theorem isNa_eq_false_iff (c : Cell) : c.isNa = false ↔ c ≠ Cell.na := by
  cases c <;> simp [Cell.isNa]

theorem mem_value_counts_fst (l : List Cell) (c : Cell) :
    c ∈ (value_counts l).map (fun p => p.1) ↔ c ∈ l ∧ c ≠ Cell.na := by
  unfold value_counts
  constructor
  · intro hc
    rcases List.mem_map.mp hc with ⟨p, hp, hpc⟩
    rw [List.mem_insertionSort] at hp
    rcases List.mem_map.mp hp with ⟨v, hv, hvp⟩
    rcases List.mem_filter.mp ((mem_uniqueInOrder _ _).mp hv) with ⟨hvl, hvna⟩
    have hvc : v = c := by rw [← hvp] at hpc; exact hpc
    subst hvc
    exact ⟨hvl, (isNa_eq_false_iff v).mp (by simpa using hvna)⟩
  · rintro ⟨hcl, hcna⟩
    apply List.mem_map.mpr
    refine ⟨(c, ((l.filter (fun x => !x.isNa)).count c)), ?_, rfl⟩
    rw [List.mem_insertionSort]
    apply List.mem_map.mpr
    refine ⟨c, ?_, rfl⟩
    rw [mem_uniqueInOrder]
    exact List.mem_filter.mpr ⟨hcl, by simp [(isNa_eq_false_iff c).mpr hcna]⟩

/-- Counterexample to C6: the string "1; 3" is a pairwise combination of two
types in 1..5, inside the claim's closed set, but the check reports an
invalid-type Error for it: the source accepts only six of the ten pairwise
combinations (and also accepts 0). -/
theorem type_distribution_rejects_claimed_combination :
    claimedValidType (Cell.str "1; 3") = true ∧
    validate_type_distribution tableCombo13 emptyFindings =
      .ok (false,
        ⟨["ERROR: Invalid perturbation types found: [1; 3]. Valid types are 1-5 (or combinations like \"2; 5\")."],
         [], []⟩) :=
  ⟨by decide, by decide⟩

/-- C6 (amended): on a table with a resolvable type column and at least one
perturbation row, the type-distribution check emits an Error — and only
then reports failure — exactly when some perturbation row carries a
non-missing type value outside the source's `validTypes` list (the strings
and integers 0..5 and the six combination strings "1; 2", "2; 3", "3; 4",
"4; 5", "1; 5", "2; 5"). -/
theorem validate_type_distribution_error_iff (t : Table) (f : Findings)
    (tc : String) (flags types : List Cell)
    (hrt : resolveTypeCol t = some tc)
    (hfc : t.getCol (flagColName t) = some flags)
    (htc : t.getCol tc = some types)
    (hne : filterByFlag flags types ≠ []) :
    ∃ (b : Bool) (f' : Findings),
      validate_type_distribution t f = .ok (b, f') ∧
      (b = false ↔ ∃ c ∈ filterByFlag flags types, c ≠ Cell.na ∧ c ∉ validTypes) ∧
      (f'.errors ≠ f.errors ↔ ∃ c ∈ filterByFlag flags types, c ≠ Cell.na ∧ c ∉ validTypes) := by
  have hlen : ¬ (filterByFlag flags types).length = 0 := by
    simpa [List.length_eq_zero] using hne
  have hiff : ((value_counts (filterByFlag flags types)).map (fun p => p.1)).filter
      (fun c => !(validTypes.contains c) && !c.isNa) ≠ [] ↔
      ∃ c ∈ filterByFlag flags types, c ≠ Cell.na ∧ c ∉ validTypes := by
    constructor
    · intro hno
      obtain ⟨a, ham, hap⟩ : ∃ a ∈ (value_counts (filterByFlag flags types)).map
          (fun p => p.1), (!(validTypes.contains a) && !a.isNa) = true := by
        by_contra hcon
        push_neg at hcon
        exact hno (List.filter_eq_nil_iff.mpr (by simpa using hcon))
      rcases (mem_value_counts_fst _ a).mp ham with ⟨hal, hana⟩
      refine ⟨a, hal, hana, ?_⟩
      intro hmem
      have hb := ((Bool.and_eq_true _ _).mp hap).1
      simp only [Bool.not_eq_true'] at hb
      exact absurd hmem (by simpa using hb)
    · rintro ⟨c, hcl, hcna, hcv⟩
      intro hnil
      have hcm : c ∈ (value_counts (filterByFlag flags types)).map (fun p => p.1) :=
        (mem_value_counts_fst _ c).mpr ⟨hcl, hcna⟩
      have hpc : (!(validTypes.contains c) && !c.isNa) = true := by
        have h1 : validTypes.contains c = false := by simpa using hcv
        have h2 : c.isNa = false := (isNa_eq_false_iff c).mpr hcna
        simp only [h1, h2]
        rfl
      exact absurd hpc (by simpa using List.filter_eq_nil_iff.mp hnil c hcm)
  simp only [validate_type_distribution, hrt, hfc, htc]
  rw [if_neg hlen]
  by_cases hinv : ((value_counts (filterByFlag flags types)).map (fun p => p.1)).filter
      (fun c => !(validTypes.contains c) && !c.isNa) = []
  · rw [if_pos hinv]
    refine ⟨true, _, rfl, ?_, ?_⟩
    · exact iff_of_false (by simp) (fun hex => (hiff.mpr hex) hinv)
    · refine iff_of_false ?_ (fun hex => (hiff.mpr hex) hinv)
      intro hneq
      apply hneq
      split_ifs <;> rfl
  · rw [if_neg hinv]
    refine ⟨false, _, rfl, ?_, ?_⟩
    · exact iff_of_true rfl (hiff.mp hinv)
    · exact iff_of_true (by simp [addError]) (hiff.mp hinv)

/-- Witness for C6 (amended) at the concrete combination table. -/
theorem validate_type_distribution_error_iff_witness :
    ∃ (b : Bool) (f' : Findings),
      validate_type_distribution tableCombo13 emptyFindings = .ok (b, f') ∧ b = false := by
  obtain ⟨b, f', hok, hb, -⟩ := validate_type_distribution_error_iff tableCombo13
    emptyFindings "perturbation_type" [Cell.str "yes"] [Cell.str "1; 3"]
    (by decide) (by decide) (by decide) (by decide)
  exact ⟨b, f', hok, hb.mpr ⟨Cell.str "1; 3", by decide, by decide, by decide⟩⟩

/-- Counterexample to C7: the document "TOTAL PERTURBATIONS: 7" contains the
phrase under a fully case-insensitive reading (the spec-modelled matcher
extracts 7) and 7 differs from the table's counted total (1), yet the check
emits a Warning and no Error: the source pattern tolerates case only in the
first letter of each keyword. -/
theorem text_csv_not_case_insensitive :
    scanTotalCI docAllCaps.data = some ['7'] ∧
    digitsToNat ['7'] ≠ (count_perturbations tableCombo13 emptyFindings).1 ∧
    validate_text_csv_consistency tableCombo13 (some docAllCaps) emptyFindings =
      (true, ⟨[], ["⚠️  Could not extract perturbation count from markdown for verification"], []⟩) :=
  ⟨by decide, by decide, by decide⟩

/-- C7 (amended): with the source's pattern — case-tolerant only in the
first letter of "total" and "perturbations" — the consistency check
extracts the captured integer and reports an Error exactly when it differs
from the table's counted perturbation total; when the pattern finds nothing
it emits a Warning, never an Error. -/
theorem validate_text_csv_consistency_spec (t : Table) (doc : String) (f : Findings) :
    (∀ ds, scanTotal doc.data = some ds →
      ((validate_text_csv_consistency t (some doc) f).1 = false ↔
        digitsToNat ds ≠ (count_perturbations t f).1) ∧
      ((validate_text_csv_consistency t (some doc) f).2.errors ≠
          (count_perturbations t f).2.errors ↔
        digitsToNat ds ≠ (count_perturbations t f).1)) ∧
    (scanTotal doc.data = none →
      validate_text_csv_consistency t (some doc) f =
        (true, addWarning f
          "⚠️  Could not extract perturbation count from markdown for verification")) := by
  constructor
  · intro ds hds
    simp only [validate_text_csv_consistency, hds]
    by_cases he : digitsToNat ds = (count_perturbations t f).1
    · rw [if_pos he]
      constructor
      · exact iff_of_false (by simp) (fun hne => hne he)
      · exact iff_of_false (fun hne => hne rfl) (fun hne => hne he)
    · rw [if_neg he]
      constructor
      · exact iff_of_true rfl he
      · exact iff_of_true (by simp [addError]) he
  · intro hnone
    simp only [validate_text_csv_consistency, hnone]

/-- Witness for C7 (amended): a matching line whose number disagrees with
the counted total yields a failing check. -/
theorem validate_text_csv_consistency_spec_witness :
    (validate_text_csv_consistency tableCombo13 (some "Total perturbations: 3")
      emptyFindings).1 = false := by
  have h := (validate_text_csv_consistency_spec tableCombo13 "Total perturbations: 3"
    emptyFindings).1 (['3'] : List Char) (by decide)
  exact h.1.mpr (by decide)

/-- Counterexample to C10: a single-row table whose episode_id cell is
missing has `nunique() = 0`, which equals neither 1 nor the event count, so
the episode-structure check emits no over-segmentation Warning (an Info
finding is recorded instead). -/
theorem episode_structure_na_single_row :
    tableNaEpisode.hasCol "episode_id" = true ∧ tableNaEpisode.nrows = 1 ∧
    validate_episode_structure tableNaEpisode emptyFindings =
      (true, ⟨[], [], ["✓ Episode structure: 0 episodes for 1 events"]⟩) :=
  ⟨by decide, by decide, by decide⟩

/-- C10 (amended): every single-row table whose episode_id value is
non-missing triggers the over-segmentation Warning, because the number of
unique non-missing episodes (1) equals the number of events. -/
theorem validate_episode_structure_one_row (t : Table) (f : Findings) (c : Cell)
    (hc : t.getCol "episode_id" = some [c]) (hna : c ≠ Cell.na) (h1 : t.nrows = 1) :
    validate_episode_structure t f = (true, addWarning f (msgOverseg 1)) := by
  have hcf : ([c].filter (fun x => !x.isNa)) = [c] := by
    cases c
    · exact absurd rfl hna
    · rfl
    · rfl
  have hu : (uniqueInOrder ([c].filter (fun x => !x.isNa))).length = 1 := by
    rw [hcf]
    rfl
  simp only [validate_episode_structure, hc]
  rw [hu, h1]
  rfl

/-- Witness for C10 (amended) at a concrete one-row table. -/
theorem validate_episode_structure_one_row_witness :
    validate_episode_structure tableOneRow emptyFindings =
      (true, ⟨[], [msgOverseg 1], []⟩) := by
  rw [validate_episode_structure_one_row tableOneRow emptyFindings (Cell.int 7)
    (by decide) (by decide) (by decide)]
  rfl

end LSH
